import Mathlib

/-
Verification of the browser-side streaming upload / search / chat layer.

The source is JavaScript (fileUpload.js, resultRenderer.js, status.js plus a
configuration module).  Text is embedded as `List Char` (JavaScript strings),
numbers as `ℚ`, JSON parsing as an abstract predicate/partial function, and
the JavaScript promise as an `Option` outcome that only the first settlement
can fill.
-/

/-- Characters of the SSE line marker checked by `line.startsWith('data: ')`. -/
def dataMarker : List Char := ['d', 'a', 't', 'a', ':', ' ']

/-- Mirrors JavaScript `text.split('\n')`: every newline separates, and the
result has one more entry than there are newlines (possibly empty entries). -/
def splitNl : List Char → List (List Char)
  | [] => [[]]
  | c :: cs =>
    if c = '\n' then [] :: splitNl cs
    else
      match splitNl cs with
      | [] => [[c]]
      | l :: ls => (c :: l) :: ls

/-- Mirrors JavaScript `String.prototype.startsWith` on character lists
(first argument is the pattern). -/
def listStartsWith : List Char → List Char → Bool
  | [], _ => true
  | _ :: _, [] => false
  | p :: ps, c :: cs => p == c && listStartsWith ps cs

/-- Handling of one line of newly arrived text (loop body at fileUpload.js
177-218): a line starting with `data: ` has the marker stripped
(`line.slice(6)`) and the remainder handed to the JSON parser; all other
lines are ignored. -/
def processLine {E : Type _} (parse : List Char → Option E) (line : List Char) : Option E :=
  if listStartsWith dataMarker line then parse (line.drop 6) else none

/-- Processing of one delivery's newly arrived substring: split on newline and
handle each line, collecting the dispatched events in order. -/
def processNewData {E : Type _} (parse : List Char → Option E) (nd : List Char) : List E :=
  (splitNl nd).filterMap (processLine parse)

/-- The decoder across deliveries (the `readystatechange` listener): each
delivery exposes the full accumulated response text; the decoder takes the
substring past the previously seen length
(`xhr.responseText.substring(buffer.length)`), remembers the full text as the
new `buffer`, and processes the new part.  Returns every dispatched event in
order. -/
def decodeDeliveries {E : Type _} (parse : List Char → Option E) :
    List Char → List (List Char) → List E
  | _, [] => []
  | buf, cur :: rest =>
      processNewData parse (cur.drop buf.length) ++ decodeDeliveries parse cur rest

/-- Cumulative response texts produced by a chunked transport: delivery `i`
exposes `buf` followed by the first `i+1` chunks. -/
def cumulFrom (buf : List Char) : List (List Char) → List (List Char)
  | [] => []
  | k :: ks => (buf ++ k) :: cumulFrom (buf ++ k) ks

/-- A well-formed stream line `data: <payload>` terminated by a newline. -/
def mkLine (s : List Char) : List Char := dataMarker ++ s ++ ['\n']

/-- A chunk made of whole well-formed lines (no chunk boundary splits a line). -/
def mkChunk (ss : List (List Char)) : List Char := (ss.map mkLine).flatten

theorem splitNl_ne_nil (s : List Char) : splitNl s ≠ [] := by
  induction s with
  | nil => simp [splitNl]
  | cons c cs ih =>
    by_cases h : c = '\n'
    · simp [splitNl, h]
    · simp only [splitNl, if_neg h]
      cases hcs : splitNl cs with
      | nil => simp
      | cons l ls => simp

theorem splitNl_line (l r : List Char) (h : '\n' ∉ l) :
    splitNl (l ++ '\n' :: r) = l :: splitNl r := by
  induction l with
  | nil => simp [splitNl]
  | cons c cs ih =>
    have hc : ¬(c = '\n') := fun hc => h (by simp [hc])
    have h' : '\n' ∉ cs := fun hm => h (List.mem_cons_of_mem _ hm)
    rw [List.cons_append]
    conv_lhs => rw [splitNl]
    rw [if_neg hc, ih h']

theorem listStartsWith_append (p s : List Char) : listStartsWith p (p ++ s) = true := by
  induction p with
  | nil => rfl
  | cons c cs ih => simp [listStartsWith, ih]

theorem processLine_marker {E : Type _} (parse : List Char → Option E) (s : List Char) :
    processLine parse (dataMarker ++ s) = parse s := by
  unfold processLine
  rw [listStartsWith_append, if_pos rfl]
  congr 1

theorem processLine_nil {E : Type _} (parse : List Char → Option E) :
    processLine parse [] = none := rfl

theorem processNewData_mkChunk {E : Type _} (parse : List Char → Option E)
    (ss : List (List Char)) (h : ∀ s ∈ ss, '\n' ∉ s) :
    processNewData parse (mkChunk ss) = ss.filterMap parse := by
  induction ss with
  | nil => rfl
  | cons s ss ih =>
    have hnl : '\n' ∉ dataMarker ++ s := by
      intro hm
      rcases List.mem_append.mp hm with h1 | h2
      · simp [dataMarker] at h1
      · exact h s (List.mem_cons_self _ _) h2
    have key : splitNl (mkChunk (s :: ss)) = (dataMarker ++ s) :: splitNl (mkChunk ss) := by
      have : mkChunk (s :: ss) = (dataMarker ++ s) ++ '\n' :: mkChunk ss := by
        simp [mkChunk, mkLine, List.flatten]
      rw [this, splitNl_line _ _ hnl]
    unfold processNewData
    rw [key, List.filterMap_cons, processLine_marker]
    have ih' := ih (fun t ht => h t (List.mem_cons_of_mem _ ht))
    unfold processNewData at ih'
    cases hp : parse s with
    | none => simp [ih', List.filterMap_cons, hp]
    | some e => simp [ih', List.filterMap_cons, hp]

theorem decodeDeliveries_cumulFrom {E : Type _} (parse : List Char → Option E)
    (buf : List Char) (ks : List (List Char)) :
    decodeDeliveries parse buf (cumulFrom buf ks)
      = (ks.map (processNewData parse)).flatten := by
  induction ks generalizing buf with
  | nil => rfl
  | cons k ks ih =>
    simp only [cumulFrom, decodeDeliveries, List.map_cons, List.flatten_cons]
    rw [List.drop_left, ih]

/-- Core decoder correctness: for any chunking into whole well-formed lines the
decoder dispatches exactly the lines' payloads through the parser, in order. -/
theorem decode_chunks_filterMap {E : Type _} (parse : List Char → Option E)
    (chunks : List (List (List Char)))
    (h : ∀ s ∈ chunks.flatten, '\n' ∉ s) :
    decodeDeliveries parse [] (cumulFrom [] (chunks.map mkChunk))
      = chunks.flatten.filterMap parse := by
  rw [decodeDeliveries_cumulFrom]
  induction chunks with
  | nil => rfl
  | cons ss rest ih =>
    have h1 : ∀ s ∈ ss, '\n' ∉ s := fun s hs => h s (by simp [hs])
    have h2 : ∀ s ∈ rest.flatten, '\n' ∉ s := fun s hs => h s (by simp [hs])
    simp only [List.map_cons, List.flatten_cons, List.filterMap_append]
    rw [processNewData_mkChunk parse ss h1, ih h2]

theorem filterMap_eq_map_of_some {α β : Type _} (f : α → Option β) (g : α → β)
    (l : List α) (h : ∀ x ∈ l, f x = some (g x)) :
    l.filterMap f = l.map g := by
  induction l with
  | nil => rfl
  | cons x xs ih =>
    rw [List.filterMap_cons, h x (List.mem_cons_self _ _), List.map_cons,
      ih (fun y hy => h y (List.mem_cons_of_mem _ hy))]

/-- One step of the brace/bracket depth scan (loop body of
`displayStreamingJsonChunk`, fileUpload.js 415-425): opening characters raise
the matching counter, closing characters lower it, others leave both alone. -/
def depthStep (d : Int × Int) (c : Char) : Int × Int :=
  if c = '{' then (d.1 + 1, d.2)
  else if c = '}' then (d.1 - 1, d.2)
  else if c = '[' then (d.1, d.2 + 1)
  else if c = ']' then (d.1, d.2 - 1)
  else d

/-- Both depth counters after scanning `s` starting from `d`. -/
def depthsFrom (d : Int × Int) (s : List Char) : Int × Int := s.foldl depthStep d

/-- Is `c` one of the closing characters `}` `]`? -/
def isCloser (c : Char) : Bool := c == '}' || c == ']'

/-- The scan of `displayStreamingJsonChunk`: walk the characters keeping both
depths, remembering the last index at which both depths are zero right after a
closing character (`lastCompleteIndex` in the source, initialized to `-1`). -/
def lciLoop : Int × Int → Int → Int → List Char → Int
  | _, _, lci, [] => lci
  | d, i, lci, c :: cs =>
      lciLoop (depthStep d c) (i + 1)
        (if (depthStep d c).1 == 0 && (depthStep d c).2 == 0 && isCloser c then i else lci) cs

/-- Value of the source's `lastCompleteIndex` after the scan of `s`. -/
def lastCompleteIndex (s : List Char) : Int := lciLoop (0, 0) 0 (-1) s

/-- Does position `j` of `s` end a prefix bringing both depths (started at `d`)
back to zero on a closing character? -/
def zeroBoundaryAt (d : Int × Int) (s : List Char) (j : Nat) : Bool :=
  match s[j]? with
  | some c => isCloser c && decide (depthsFrom d (s.take (j + 1)) = (0, 0))
  | none => false

/-- What `displayStreamingJsonChunk` leaves in the streaming-JSON pane.
`pretty s` stands for `JSON.stringify(JSON.parse(s), null, 2)` of a fully
parsed `s`; `prettyClean`/`rawClean` carry the truncated `cleanContent` and
whether the `... (streaming)` marker was appended; `rawStreaming` is the raw
text always followed by the marker. -/
inductive JsonDisplay where
  | pretty (src : List Char) : JsonDisplay
  | prettyClean (src : List Char) (marker : Bool) : JsonDisplay
  | rawClean (src : List Char) (marker : Bool) : JsonDisplay
  | rawStreaming (src : List Char) : JsonDisplay
deriving DecidableEq

/-- Shallow embedding of `displayStreamingJsonChunk` (fileUpload.js 385-454);
`JSON.parse` success is abstracted as the predicate `parseOk`.  The source
receives the accumulated buffer as a third argument but only ever renders the
`chunk` argument, which is what is embedded here. -/
def displayStreamingJsonChunk (parseOk : List Char → Bool) (chunk : List Char) : JsonDisplay :=
  if parseOk chunk then .pretty chunk
  else
    let k := lastCompleteIndex chunk
    if 0 < k then
      let clean := chunk.take (k.toNat + 1)
      if parseOk clean then .prettyClean clean (decide (clean.length < chunk.length))
      else .rawClean clean (decide (clean.length < chunk.length))
    else .rawStreaming chunk

theorem depthsFrom_cons (d : Int × Int) (c : Char) (cs : List Char) :
    depthsFrom d (c :: cs) = depthsFrom (depthStep d c) cs := rfl

theorem zeroBoundaryAt_cons (d : Int × Int) (c : Char) (cs : List Char) (j : Nat) :
    zeroBoundaryAt d (c :: cs) (j + 1) = zeroBoundaryAt (depthStep d c) cs j := by
  simp [zeroBoundaryAt, depthsFrom]

theorem lciLoop_append (d : Int × Int) (i lci : Int) (xs ys : List Char) :
    lciLoop d i lci (xs ++ ys)
      = lciLoop (depthsFrom d xs) (i + xs.length) (lciLoop d i lci xs) ys := by
  induction xs generalizing d i lci with
  | nil => simp [depthsFrom, lciLoop]
  | cons x xs ih =>
    rw [List.cons_append]
    rw [show lciLoop d i lci (x :: (xs ++ ys))
        = lciLoop (depthStep d x) (i + 1)
            (if (depthStep d x).1 == 0 && (depthStep d x).2 == 0 && isCloser x then i else lci)
            (xs ++ ys) from rfl]
    rw [ih]
    rw [show lciLoop d i lci (x :: xs)
        = lciLoop (depthStep d x) (i + 1)
            (if (depthStep d x).1 == 0 && (depthStep d x).2 == 0 && isCloser x then i else lci)
            xs from rfl,
      depthsFrom_cons]
    have hlen : i + ((x :: xs).length : Int) = i + 1 + (xs.length : Int) := by
      push_cast [List.length_cons]
      ring
    rw [hlen]

theorem lciLoop_no_boundary (d : Int × Int) (i lci : Int) (s : List Char)
    (h : ∀ j, j < s.length → zeroBoundaryAt d s j = false) :
    lciLoop d i lci s = lci := by
  induction s generalizing d i lci with
  | nil => rfl
  | cons c cs ih =>
    have h0 : zeroBoundaryAt d (c :: cs) 0 = false := h 0 (by simp)
    have hcond : ((depthStep d c).1 == 0 && (depthStep d c).2 == 0 && isCloser c) = false := by
      have h0' : (isCloser c && decide (depthStep d c = (0, 0))) = false := by
        simpa [zeroBoundaryAt, depthsFrom] using h0
      cases hclo : isCloser c with
      | false => simp [hclo]
      | true =>
        have hne : depthStep d c ≠ (0, 0) := by simpa [hclo] using h0'
        have hor : ¬((depthStep d c).1 = 0 ∧ (depthStep d c).2 = 0) := by
          intro hx
          exact hne (Prod.ext hx.1 hx.2)
        rcases not_and_or.mp hor with hx | hx
        · simp [hx]
        · simp [hx]
    show lciLoop (depthStep d c) (i + 1)
        (if (depthStep d c).1 == 0 && (depthStep d c).2 == 0 && isCloser c then i else lci) cs
      = lci
    rw [hcond]
    simp only [Bool.false_eq_true, if_false]
    exact ih _ _ _ (fun j hj => by
      have := h (j + 1) (by simpa using Nat.succ_lt_succ hj)
      rwa [zeroBoundaryAt_cons] at this)

theorem depthsFrom_append (d : Int × Int) (xs ys : List Char) :
    depthsFrom d (xs ++ ys) = depthsFrom (depthsFrom d xs) ys := by
  simp [depthsFrom, List.foldl_append]

/-- If a prefix `b' ++ [c]` closes with both depths back at zero and the tail
`t` never reaches such a boundary again, the scan stops at the prefix's last
index. -/
theorem lastCompleteIndex_boundary (b' : List Char) (c : Char) (t : List Char)
    (hc : isCloser c = true)
    (hd : depthsFrom (0, 0) (b' ++ [c]) = (0, 0))
    (ht : ∀ j, j < t.length → zeroBoundaryAt (0, 0) t j = false) :
    lastCompleteIndex ((b' ++ [c]) ++ t) = (b'.length : Int) := by
  have hD : depthStep (depthsFrom (0, 0) b') c = (0, 0) := by
    rw [depthsFrom_append] at hd
    simpa [depthsFrom] using hd
  have hin : lciLoop (0, 0) 0 (-1) (b' ++ [c]) = (b'.length : Int) := by
    rw [lciLoop_append (0, 0) 0 (-1) b' [c]]
    show lciLoop (depthStep (depthsFrom (0, 0) b') c) (0 + (b'.length : Int) + 1)
        (if (depthStep (depthsFrom (0, 0) b') c).1 == 0
            && (depthStep (depthsFrom (0, 0) b') c).2 == 0 && isCloser c
         then 0 + (b'.length : Int) else lciLoop (0, 0) 0 (-1) b') []
      = (b'.length : Int)
    rw [hD, hc]
    simp [lciLoop]
  unfold lastCompleteIndex
  rw [lciLoop_append (0, 0) 0 (-1) (b' ++ [c]) t, hd, hin,
    lciLoop_no_boundary (0, 0) _ _ t ht]

/-- Whitespace characters of the JavaScript `\s` class (subset used here). -/
def isWs (c : Char) : Bool := c == ' ' || c == '\n' || c == '\t' || c == '\r'

/-- Mirrors JavaScript `String.prototype.trim`. -/
def jsTrim (s : List Char) : List Char :=
  ((s.dropWhile isWs).reverse.dropWhile isWs).reverse

/-- Mirrors JavaScript `text.split(/\s+/)`: a maximal whitespace run separates
fields, and a leading or trailing run contributes an empty field. -/
def splitWsRuns : List Char → List (List Char)
  | [] => [[]]
  | c :: cs =>
      if isWs c then
        match cs with
        | [] => [[], []]
        | d :: ds => if isWs d then splitWsRuns (d :: ds) else [] :: splitWsRuns (d :: ds)
      else
        match splitWsRuns cs with
        | [] => [[c]]
        | l :: ls => (c :: l) :: ls

/-- Word count as computed at fileUpload.js:191:
`captionBuffer.trim().split(/\s+/).length`. -/
def captionWordCount (cb : List Char) : Nat := (splitWsRuns (jsTrim cb)).length

/-- Caption sub-progress estimate, fileUpload.js:192:
`Math.min(wordCount / 30, 1)`. -/
def captionProgress (cb : List Char) : ℚ := min ((captionWordCount cb : ℚ) / 30) 1

/-- A parsed stream event (`JSON.parse(line.slice(6))`) restricted to the
fields the upload handlers read; `document_id` stands in for the open payload
surfaced on `complete`. -/
structure SEvent where
  type : List Char
  percent : ℚ
  stage : Option (List Char)
  detail : Option (List Char)
  document_id : Option (List Char)
deriving DecidableEq

/-- Outcome held by a settled upload promise. -/
inductive UOutcome where
  | resolved (payload : SEvent) : UOutcome
  | rejected (msg : List Char) : UOutcome
deriving DecidableEq

/-- JavaScript promise settlement: only the first resolve/reject takes effect,
later settlements are ignored. -/
def settle (p : Option UOutcome) (o : UOutcome) : Option UOutcome :=
  match p with
  | none => some o
  | some x => some x

/-- JavaScript `v || dflt` for an optional string: `undefined` and the empty
string are both falsy. -/
def jsOrElse (v : Option (List Char)) (dflt : List Char) : List Char :=
  match v with
  | none => dflt
  | some s => if s = [] then dflt else s

/-- The test `data.stage && data.stage.startsWith(p)`. -/
def stageStarts (stage : Option (List Char)) (p : List Char) : Bool :=
  match stage with
  | none => false
  | some s => listStartsWith p s

/-- Stage marker for streamed caption fragments (image path). -/
def captionMarker : List Char := "CAPTION_CHUNK:".data

/-- Stage marker for streamed OCR text (image path). -/
def ocrMarker : List Char := "OCR_TEXT:".data

/-- Stage marker for streamed structured-JSON fragments (PDF path). -/
def structuredMarker : List Char := "STRUCTURED_CHUNK:".data

/-- The plain status strings the PDF path recognizes at fileUpload.js 293-301. -/
def knownPdfStages : List (List Char) :=
  ["Extracting text from PDF".data, "Text extraction complete".data,
   "Structuring text with LLM".data, "Generating keywords".data,
   "Keywords generated".data, "Generating vector embeddings".data,
   "Vector embeddings generated".data, "Saving to database".data,
   "PDF processing complete".data]

/-- UI state tracked by one image upload's streaming handler: the caption
accumulator, the current progress width with the log of every width
assignment, the status line with its color, and the pending promise. -/
structure ImgState where
  captionBuffer : List Char
  width : ℚ
  widthWrites : List ℚ
  statusText : Option (List Char)
  statusColor : List Char
  promise : Option UOutcome
deriving DecidableEq

/-- Assignment `progressFill.style.width = w + '%'`, also logged. -/
def setImgWidth (st : ImgState) (w : ℚ) : ImgState :=
  { st with width := w, widthWrites := st.widthWrites ++ [w] }

/-- State of an image upload before any stream event arrives. -/
def imgInit : ImgState :=
  { captionBuffer := [], width := 0, widthWrites := [],
    statusText := some "Pending...".data, statusColor := [], promise := none }

/-- Shallow embedding of the per-event body of the `readystatechange` handler
in `uploadImageWithStreaming` (fileUpload.js 183-217).  The source strips the
caption marker with `replace('CAPTION_CHUNK:', '')`, which under the
`startsWith` guard removes exactly the leading marker, embedded as `drop`. -/
def handleImageEvent (st : ImgState) (e : SEvent) : ImgState :=
  if e.type = "progress".data then
    let st1 := setImgWidth st (20 + e.percent * (4 / 5))
    if stageStarts e.stage captionMarker then
      let chunk := (e.stage.getD []).drop captionMarker.length
      let cb := st1.captionBuffer ++ chunk
      let st2 := setImgWidth { st1 with captionBuffer := cb }
        (20 + 30 * (4 / 5) + captionProgress cb * 30 * (4 / 5))
      { st2 with statusText := some cb, statusColor := "#10b981".data }
    else if stageStarts e.stage ocrMarker then
      { st1 with
        statusText := some ("OCR Text: ".data ++ (e.stage.getD []).drop ocrMarker.length),
        statusColor := "#3b82f6".data }
    else
      { st1 with statusText := e.stage, statusColor := [] }
  else if e.type = "complete".data then
    let st1 := setImgWidth st 100
    { st1 with statusText := some "Upload complete!".data,
               promise := settle st.promise (.resolved e) }
  else if e.type = "error".data then
    { st with promise := settle st.promise (.rejected (jsOrElse e.detail "Upload failed".data)) }
  else st

/-- UI state tracked by one PDF upload's streaming handler; `displayCalls`
logs each `displayStreamingJsonChunk(fileItem, chunk, jsonBuffer)` call with
its chunk and buffer arguments. -/
structure PdfState where
  jsonBuffer : List Char
  width : ℚ
  widthWrites : List ℚ
  statusText : Option (List Char)
  statusColor : List Char
  displayCalls : List (List Char × List Char)
  promise : Option UOutcome
deriving DecidableEq

/-- Assignment `progressFill.style.width = w + '%'`, also logged. -/
def setPdfWidth (st : PdfState) (w : ℚ) : PdfState :=
  { st with width := w, widthWrites := st.widthWrites ++ [w] }

/-- State of a PDF upload before any stream event arrives. -/
def pdfInit : PdfState :=
  { jsonBuffer := [], width := 0, widthWrites := [],
    statusText := some "Pending...".data, statusColor := [],
    displayCalls := [], promise := none }

/-- Structured sub-progress width, fileUpload.js 284-287 and 304-307: the
estimate `Math.min(jsonBuffer.length / 2000, 1)` blended as
`20 + 30 + (jsonProgress * 40)`. -/
def pdfStructuredWidth (n : Nat) : ℚ := 20 + 30 + min ((n : ℚ) / 2000) 1 * 40

/-- The second condition at fileUpload.js 293-301: a truthy stage different
from every recognized plain status string. -/
def stagePlainOther (stage : Option (List Char)) : Bool :=
  match stage with
  | none => false
  | some s => !decide (s = []) && !decide (s ∈ knownPdfStages)

/-- Shallow embedding of the per-event body of the `readystatechange` handler
in `uploadPdfWithStreaming` (fileUpload.js 277-324). -/
def handlePdfEvent (st : PdfState) (e : SEvent) : PdfState :=
  if e.type = "progress".data then
    let st1 := setPdfWidth st e.percent
    if stageStarts e.stage structuredMarker then
      let chunk := (e.stage.getD []).drop structuredMarker.length
      let jb := st1.jsonBuffer ++ chunk
      let st2 := setPdfWidth { st1 with jsonBuffer := jb } (pdfStructuredWidth jb.length)
      { st2 with displayCalls := st2.displayCalls ++ [(chunk, jb)],
                 statusText := some "Structuring document...".data,
                 statusColor := "#10b981".data }
    else if stagePlainOther e.stage then
      let s := e.stage.getD []
      let jb := st1.jsonBuffer ++ s
      let st2 := setPdfWidth { st1 with jsonBuffer := jb } (pdfStructuredWidth jb.length)
      { st2 with displayCalls := st2.displayCalls ++ [(s, jb)],
                 statusText := some "Structuring document...".data,
                 statusColor := "#10b981".data }
    else
      { st1 with statusText := e.stage, statusColor := [] }
  else if e.type = "complete".data then
    let st1 := setPdfWidth st 100
    { st1 with statusText := some "Upload complete!".data,
               promise := settle st.promise (.resolved e) }
  else if e.type = "error".data then
    { st with promise := settle st.promise (.rejected (jsOrElse e.detail "Upload failed".data)) }
  else st

/-- Fold a stream of parsed events through the image handler. -/
def runImageEvents (st : ImgState) (es : List SEvent) : ImgState :=
  es.foldl handleImageEvent st

/-- Fold a stream of parsed events through the PDF handler. -/
def runPdfEvents (st : PdfState) (es : List SEvent) : PdfState :=
  es.foldl handlePdfEvent st

/-- The settlement an event forces, if it is terminal: `complete` resolves
with the event's payload, `error` rejects with `detail || 'Upload failed'`. -/
def terminalOutcome (e : SEvent) : Option UOutcome :=
  if e.type = "complete".data then some (.resolved e)
  else if e.type = "error".data then
    some (.rejected (jsOrElse e.detail "Upload failed".data))
  else none

/-- What `displaySearchResults` rendered. -/
inductive SearchDisplay where
  | noResults : SearchDisplay
  | rendered : SearchDisplay
deriving DecidableEq

/-- Shallow embedding of `displaySearchResults` (fileUpload.js 568-585):
`store` is `window.currentSearchResults`; an empty result list shows the
no-results message and returns early, a non-empty one overwrites the store
and renders the items. -/
def displaySearchResults {α : Type _} (store : Option (List α)) (results : List α) :
    Option (List α) × SearchDisplay :=
  if results.isEmpty then (store, .noResults)
  else (some results, .rendered)

/-- One chat history entry. -/
structure ChatMessage where
  role : List Char
  content : List Char
deriving DecidableEq

/-- CONFIG.maxChatHistory from the configuration module. -/
def maxChatHistory : Nat := 100

/-- Chat-history update at the end of `ChatManager.sendMessage`
(resultRenderer.js 255-262): push the user and assistant entries, then
`chatHistory.slice(-CONFIG.maxChatHistory)` when over the limit. -/
def sendMessageHistoryUpdate (hist : List ChatMessage) (message responseText : List Char) :
    List ChatMessage :=
  let h := hist ++ [⟨"user".data, message⟩, ⟨"assistant".data, responseText⟩]
  if maxChatHistory < h.length then h.drop (h.length - maxChatHistory) else h

/-- C1: for every sequence of chunks made of whole newline-terminated
`data: <json>` lines, the decoder (substring past previous length, split on
newline, parse each `data: ` line) dispatches exactly one event per line, in
arrival order, with no duplicates and no drops, regardless of the chunking. -/
theorem stream_decoder_one_event_per_line {E : Type} (parse : List Char → Option E)
    (ev : List Char → E) (chunks : List (List (List Char)))
    (hnl : ∀ s ∈ chunks.flatten, '\n' ∉ s)
    (hp : ∀ s ∈ chunks.flatten, parse s = some (ev s)) :
    decodeDeliveries parse [] (cumulFrom [] (chunks.map mkChunk))
      = chunks.flatten.map ev := by
  rw [decode_chunks_filterMap parse chunks hnl]
  exact filterMap_eq_map_of_some parse ev _ hp

theorem stream_decoder_one_event_per_line_witness :
    (∀ s ∈ ([[['a']], [['b'], ['c', 'd']]] : List (List (List Char))).flatten, '\n' ∉ s) ∧
    decodeDeliveries (fun s => some s.length) []
        (cumulFrom [] (([[['a']], [['b'], ['c', 'd']]] : List (List (List Char))).map mkChunk))
      = [1, 1, 2] := by
  refine ⟨by decide, ?_⟩
  rw [stream_decoder_one_event_per_line (fun s => some s.length) List.length
    [[['a']], [['b'], ['c', 'd']]] (by decide) (fun s _ => rfl)]
  decide

/-- C7: a `data: ` line whose remainder fails to parse is skipped without
aborting the stream, and every valid `data: ` line after it is still
dispatched: the decoded stream equals the events of the valid lines alone. -/
theorem malformed_line_skipped {E : Type} (parse : List Char → Option E)
    (ev : List Char → E) (chunks : List (List (List Char)))
    (good1 good2 : List (List Char)) (bad : List Char)
    (hnl : ∀ s ∈ chunks.flatten, '\n' ∉ s)
    (hsplit : chunks.flatten = good1 ++ bad :: good2)
    (hbad : parse bad = none)
    (hgood : ∀ s ∈ good1 ++ good2, parse s = some (ev s)) :
    decodeDeliveries parse [] (cumulFrom [] (chunks.map mkChunk))
      = good1.map ev ++ good2.map ev := by
  rw [decode_chunks_filterMap parse chunks hnl, hsplit]
  simp only [List.filterMap_append, List.filterMap_cons, hbad]
  rw [filterMap_eq_map_of_some parse ev good1 (fun s hs => hgood s (List.mem_append_left _ hs)),
    filterMap_eq_map_of_some parse ev good2 (fun s hs => hgood s (List.mem_append_right _ hs))]

theorem malformed_line_skipped_witness :
    (fun s => if s.length = 1 then some s.length else none : List Char → Option Nat)
        ['x', 'y'] = none ∧
    decodeDeliveries (fun s => if s.length = 1 then some s.length else none) []
        (cumulFrom [] (([[['a'], ['x', 'y'], ['b']]] : List (List (List Char))).map mkChunk))
      = [1, 1] := by
  refine ⟨rfl, ?_⟩
  rw [malformed_line_skipped (fun s => if s.length = 1 then some s.length else none)
    List.length [[['a'], ['x', 'y'], ['b']]] [['a']] [['b']] ['x', 'y']
    (by decide) (by decide) rfl (by decide)]
  decide

theorem handleImageEvent_promise (st : ImgState) (e : SEvent) :
    (handleImageEvent st e).promise
      = match terminalOutcome e with
        | none => st.promise
        | some o => settle st.promise o := by
  by_cases h1 : e.type = "progress".data
  · have h2 : ¬(e.type = "complete".data) := by rw [h1]; decide
    have h3 : ¬(e.type = "error".data) := by rw [h1]; decide
    simp only [handleImageEvent, terminalOutcome, if_pos h1, if_neg h2, if_neg h3]
    split_ifs <;> rfl
  · by_cases h2 : e.type = "complete".data
    · simp only [handleImageEvent, terminalOutcome, if_neg h1, if_pos h2]
    · by_cases h3 : e.type = "error".data
      · simp only [handleImageEvent, terminalOutcome, if_neg h1, if_neg h2, if_pos h3]
      · simp only [handleImageEvent, terminalOutcome, if_neg h1, if_neg h2, if_neg h3]

theorem handlePdfEvent_promise (st : PdfState) (e : SEvent) :
    (handlePdfEvent st e).promise
      = match terminalOutcome e with
        | none => st.promise
        | some o => settle st.promise o := by
  by_cases h1 : e.type = "progress".data
  · have h2 : ¬(e.type = "complete".data) := by rw [h1]; decide
    have h3 : ¬(e.type = "error".data) := by rw [h1]; decide
    simp only [handlePdfEvent, terminalOutcome, if_pos h1, if_neg h2, if_neg h3]
    split_ifs <;> rfl
  · by_cases h2 : e.type = "complete".data
    · simp only [handlePdfEvent, terminalOutcome, if_neg h1, if_pos h2]
    · by_cases h3 : e.type = "error".data
      · simp only [handlePdfEvent, terminalOutcome, if_neg h1, if_neg h2, if_pos h3]
      · simp only [handlePdfEvent, terminalOutcome, if_neg h1, if_neg h2, if_neg h3]

theorem runImageEvents_settled (st : ImgState) (o : UOutcome) (es : List SEvent)
    (h : st.promise = some o) : (runImageEvents st es).promise = some o := by
  induction es generalizing st with
  | nil => exact h
  | cons e es ih =>
    show (runImageEvents (handleImageEvent st e) es).promise = some o
    apply ih
    rw [handleImageEvent_promise]
    rcases hT : terminalOutcome e with _ | o'
    · exact h
    · simp [settle, h]

theorem runPdfEvents_settled (st : PdfState) (o : UOutcome) (es : List SEvent)
    (h : st.promise = some o) : (runPdfEvents st es).promise = some o := by
  induction es generalizing st with
  | nil => exact h
  | cons e es ih =>
    show (runPdfEvents (handlePdfEvent st e) es).promise = some o
    apply ih
    rw [handlePdfEvent_promise]
    rcases hT : terminalOutcome e with _ | o'
    · exact h
    · simp [settle, h]

theorem runImageEvents_firstTerminal (st : ImgState) (es : List SEvent)
    (h : st.promise = none) :
    (runImageEvents st es).promise = es.findSome? terminalOutcome := by
  induction es generalizing st with
  | nil => exact h
  | cons e es ih =>
    show (runImageEvents (handleImageEvent st e) es).promise
      = (e :: es).findSome? terminalOutcome
    rcases hT : terminalOutcome e with _ | o
    · have hp : (handleImageEvent st e).promise = none := by
        rw [handleImageEvent_promise, hT]
        exact h
      rw [ih _ hp]
      simp [List.findSome?_cons, hT]
    · have hp : (handleImageEvent st e).promise = some o := by
        rw [handleImageEvent_promise, hT]
        simp [settle, h]
      rw [runImageEvents_settled _ o es hp]
      simp [List.findSome?_cons, hT]

theorem runPdfEvents_firstTerminal (st : PdfState) (es : List SEvent)
    (h : st.promise = none) :
    (runPdfEvents st es).promise = es.findSome? terminalOutcome := by
  induction es generalizing st with
  | nil => exact h
  | cons e es ih =>
    show (runPdfEvents (handlePdfEvent st e) es).promise
      = (e :: es).findSome? terminalOutcome
    rcases hT : terminalOutcome e with _ | o
    · have hp : (handlePdfEvent st e).promise = none := by
        rw [handlePdfEvent_promise, hT]
        exact h
      rw [ih _ hp]
      simp [List.findSome?_cons, hT]
    · have hp : (handlePdfEvent st e).promise = some o := by
        rw [handlePdfEvent_promise, hT]
        simp [settle, h]
      rw [runPdfEvents_settled _ o es hp]
      simp [List.findSome?_cons, hT]

/-- C3 (amended): on both upload paths the pending promise is settled exactly
by the first terminal event of the stream (`complete` resolves with the
event's payload, `error` rejects with the `detail` message when it is a
non-empty string and with `Upload failed` when `detail` is absent or empty);
later terminal events cannot change the settled outcome. -/
theorem upload_terminal_first_wins (sti : ImgState) (stp : PdfState) (es : List SEvent)
    (hi : sti.promise = none) (hp : stp.promise = none) :
    (runImageEvents sti es).promise = es.findSome? terminalOutcome ∧
    (runPdfEvents stp es).promise = es.findSome? terminalOutcome :=
  ⟨runImageEvents_firstTerminal sti es hi, runPdfEvents_firstTerminal stp es hp⟩

theorem upload_terminal_first_wins_witness :
    (runImageEvents imgInit
        [⟨"error".data, 0, none, some "boom".data, none⟩,
         ⟨"complete".data, 0, none, none, none⟩]).promise
      = some (.rejected "boom".data) ∧
    (runPdfEvents pdfInit
        [⟨"error".data, 0, none, some "boom".data, none⟩,
         ⟨"complete".data, 0, none, none, none⟩]).promise
      = some (.rejected "boom".data) := by
  have h := upload_terminal_first_wins imgInit pdfInit
    [⟨"error".data, 0, none, some "boom".data, none⟩,
     ⟨"complete".data, 0, none, none, none⟩] rfl rfl
  refine ⟨?_, ?_⟩
  · rw [h.1]; decide
  · rw [h.2]; decide

theorem upload_error_detail_counterexample :
    (⟨"error".data, 0, none, some [], none⟩ : SEvent).detail = some [] ∧
    (runImageEvents imgInit [⟨"error".data, 0, none, some [], none⟩]).promise
      = some (.rejected "Upload failed".data) ∧
    "Upload failed".data ≠ ([] : List Char) := by decide

/-- C2: on the image path every `progress` event first writes the width
`20 + percent*0.8`; for a `progress` event with no stage payload that is also
the displayed width (percent 50 displays 60); a `complete` event sets the
width to 100 and resolves the pending promise with the event's payload
(hence with its `document_id` field when present). -/
theorem image_progress_weighting (st : ImgState) (p : ℚ) (e ec : SEvent)
    (hp0 : 0 ≤ p) (hp1 : p ≤ 100)
    (he : e.type = "progress".data) (hpc : e.percent = p) (hs : e.stage = none)
    (hc : ec.type = "complete".data) (hpend : st.promise = none) :
    (handleImageEvent st e).width = 20 + p * (4 / 5) ∧
    (handleImageEvent st e).widthWrites = st.widthWrites ++ [20 + p * (4 / 5)] ∧
    (∀ e2, e2.type = "progress".data →
      ∃ rest, (handleImageEvent st e2).widthWrites
        = st.widthWrites ++ (20 + e2.percent * (4 / 5)) :: rest) ∧
    (handleImageEvent st ec).width = 100 ∧
    (handleImageEvent st ec).promise = some (.resolved ec) := by
  have hcp : ¬(ec.type = "progress".data) := by rw [hc]; decide
  refine ⟨?_, ?_, ?_, ?_, ?_⟩
  · simp [handleImageEvent, he, hs, stageStarts, setImgWidth, hpc]
  · simp [handleImageEvent, he, hs, stageStarts, setImgWidth, hpc]
  · intro e2 he2
    simp only [handleImageEvent, if_pos he2]
    split_ifs
    · refine ⟨[20 + 30 * (4 / 5) +
          captionProgress (st.captionBuffer ++ (e2.stage.getD []).drop captionMarker.length)
            * 30 * (4 / 5)], ?_⟩
      simp [setImgWidth, List.append_assoc]
    · exact ⟨[], by simp [setImgWidth]⟩
    · exact ⟨[], by simp [setImgWidth]⟩
  · simp [handleImageEvent, if_neg hcp, if_pos hc, setImgWidth]
  · simp [handleImageEvent, if_neg hcp, if_pos hc, setImgWidth, settle, hpend]

theorem image_progress_weighting_witness :
    (handleImageEvent imgInit ⟨"progress".data, 50, none, none, none⟩).width = 60 ∧
    (handleImageEvent imgInit ⟨"complete".data, 0, none, none, some "abc123".data⟩).width
      = 100 ∧
    (handleImageEvent imgInit ⟨"complete".data, 0, none, none, some "abc123".data⟩).promise
      = some (.resolved ⟨"complete".data, 0, none, none, some "abc123".data⟩) := by
  have h := image_progress_weighting imgInit 50 ⟨"progress".data, 50, none, none, none⟩
    ⟨"complete".data, 0, none, none, some "abc123".data⟩
    (by norm_num) (by norm_num) rfl rfl rfl rfl rfl
  refine ⟨?_, h.2.2.2.1, h.2.2.2.2⟩
  rw [h.1]
  norm_num

/-- C6: the caption sub-progress estimate is exactly
`min(wordCount(captionBuffer)/30, 1)`; it never exceeds 1, and it equals
exactly 1 as soon as the accumulated caption has 30 or more words. -/
theorem caption_progress_saturates (cb : List Char) :
    captionProgress cb = min ((captionWordCount cb : ℚ) / 30) 1 ∧
    captionProgress cb ≤ 1 ∧
    (30 ≤ captionWordCount cb → captionProgress cb = 1) := by
  refine ⟨rfl, min_le_right _ _, fun h => ?_⟩
  have h30 : (30 : ℚ) ≤ (captionWordCount cb : ℚ) := by exact_mod_cast h
  have h1 : (1 : ℚ) ≤ (captionWordCount cb : ℚ) / 30 := by
    rw [le_div_iff₀ (by norm_num : (0 : ℚ) < 30)]
    linarith
  unfold captionProgress
  exact min_eq_right h1

theorem caption_progress_saturates_witness :
    30 ≤ captionWordCount (List.replicate 30 ['a', ' ']).flatten ∧
    captionProgress (List.replicate 30 ['a', ' ']).flatten = 1 :=
  ⟨by decide, (caption_progress_saturates _).2.2 (by decide)⟩

/-- C4: when the payload handed to the partial-JSON renderer is not itself
valid JSON, and it is a balanced prefix `b' ++ [c]` (both depths back at zero
on the closing character `c`) followed by trailing text that never reaches a
zero-depth boundary, the renderer pretty-prints exactly the balanced prefix
and appends the streaming marker; a payload with no zero-depth boundary at
all is shown raw with the marker appended. -/
theorem streaming_json_balanced_view (parseOk : List Char → Bool)
    (b' : List Char) (c : Char) (t : List Char)
    (hfull : parseOk ((b' ++ [c]) ++ t) = false)
    (hc : isCloser c = true)
    (hd : depthsFrom (0, 0) (b' ++ [c]) = (0, 0))
    (hb : 1 ≤ b'.length)
    (ht : ∀ j, j < t.length → zeroBoundaryAt (0, 0) t j = false)
    (htne : t ≠ [])
    (hclean : parseOk (b' ++ [c]) = true) :
    displayStreamingJsonChunk parseOk ((b' ++ [c]) ++ t) = .prettyClean (b' ++ [c]) true ∧
    (∀ c2, parseOk c2 = false →
      (∀ j, j < c2.length → zeroBoundaryAt (0, 0) c2 j = false) →
      displayStreamingJsonChunk parseOk c2 = .rawStreaming c2) := by
  constructor
  · have hk : (0 : Int) < (b'.length : Int) := by exact_mod_cast hb
    unfold displayStreamingJsonChunk
    rw [hfull]
    simp only [Bool.false_eq_true, if_false]
    rw [lastCompleteIndex_boundary b' c t hc hd ht, if_pos hk]
    have htake : ((b' ++ [c]) ++ t).take ((b'.length : Int).toNat + 1) = b' ++ [c] := by
      have h1 : (b'.length : Int).toNat + 1 = (b' ++ [c]).length := by simp
      rw [h1]
      exact List.take_left _ _
    rw [htake, hclean]
    have hmark : (b' ++ [c]).length < ((b' ++ [c]) ++ t).length := by
      simp only [List.length_append]
      have := List.length_pos.mpr htne
      omega
    simp [hmark, List.length_pos.mpr htne]
  · intro c2 h2 hnb
    unfold displayStreamingJsonChunk
    rw [h2]
    simp only [Bool.false_eq_true, if_false]
    have hlci : lastCompleteIndex c2 = -1 := lciLoop_no_boundary (0, 0) 0 (-1) c2 hnb
    rw [hlci, if_neg (by norm_num : ¬((0 : Int) < -1))]

theorem streaming_json_balanced_view_witness :
    displayStreamingJsonChunk (fun s => s == ['{', '}']) ['{', '}', '{']
      = .prettyClean ['{', '}'] true ∧
    displayStreamingJsonChunk (fun s => s == ['{', '}']) ['{', 'a']
      = .rawStreaming ['{', 'a'] := by
  have h := streaming_json_balanced_view (fun s => s == ['{', '}']) ['{'] '}' ['{']
    (by decide) (by decide) (by decide) (by decide) (by decide) (by decide) (by decide)
  exact ⟨h.1, h.2 ['{', 'a'] (by decide) (by decide)⟩

theorem handlePdf_structured (st : PdfState) (e : SEvent) (s : List Char)
    (he : e.type = "progress".data) (hs : e.stage = some (structuredMarker ++ s)) :
    (handlePdfEvent st e).width = pdfStructuredWidth (st.jsonBuffer ++ s).length ∧
    (handlePdfEvent st e).jsonBuffer = st.jsonBuffer ++ s := by
  have hstart : stageStarts e.stage structuredMarker = true := by
    rw [hs]
    exact listStartsWith_append _ _
  have hdrop : (e.stage.getD []).drop structuredMarker.length = s := by
    rw [hs]
    exact List.drop_left _ _
  constructor <;>
    simp [handlePdfEvent, he, hstart, hdrop, setPdfWidth]

/-- C5 (amended): on the PDF path a `STRUCTURED_CHUNK` progress event appends
the payload to the JSON accumulator, computes the estimate
`min(length/2000, 1)` and displays `20 + 30 + estimate*40`: a fixed 50-90
sub-band of the bar, non-decreasing in the accumulated length, starting at 50
and saturating at 90 once 2000 characters have accumulated. -/
theorem pdf_structured_band (st : PdfState) (e : SEvent) (s : List Char)
    (he : e.type = "progress".data) (hs : e.stage = some (structuredMarker ++ s)) :
    (handlePdfEvent st e).width = pdfStructuredWidth (st.jsonBuffer ++ s).length ∧
    (handlePdfEvent st e).jsonBuffer = st.jsonBuffer ++ s ∧
    (∀ n : Nat, pdfStructuredWidth n = 20 + 30 + min ((n : ℚ) / 2000) 1 * 40) ∧
    (∀ m n : Nat, m ≤ n → pdfStructuredWidth m ≤ pdfStructuredWidth n) ∧
    (∀ n : Nat, 50 ≤ pdfStructuredWidth n ∧ pdfStructuredWidth n ≤ 90) ∧
    (∀ n : Nat, 2000 ≤ n → pdfStructuredWidth n = 90) := by
  refine ⟨(handlePdf_structured st e s he hs).1, (handlePdf_structured st e s he hs).2,
    fun n => rfl, ?_, ?_, ?_⟩
  · intro m n hmn
    unfold pdfStructuredWidth
    have hq : (m : ℚ) ≤ (n : ℚ) := by exact_mod_cast hmn
    gcongr
  · intro n
    have h0 : (0 : ℚ) ≤ min ((n : ℚ) / 2000) 1 := le_min (by positivity) (by norm_num)
    have h1 : min ((n : ℚ) / 2000) 1 ≤ 1 := min_le_right _ _
    unfold pdfStructuredWidth
    constructor <;> linarith
  · intro n hn
    have hq : (1 : ℚ) ≤ (n : ℚ) / 2000 := by
      rw [le_div_iff₀ (by norm_num : (0 : ℚ) < 2000)]
      have : (2000 : ℚ) ≤ (n : ℚ) := by exact_mod_cast hn
      linarith
    unfold pdfStructuredWidth
    rw [min_eq_right hq]
    norm_num

theorem pdf_structured_band_witness :
    (handlePdfEvent pdfInit
        ⟨"progress".data, 60, some (structuredMarker ++ "ab".data), none, none⟩).width
      = pdfStructuredWidth 2 ∧
    (handlePdfEvent pdfInit
        ⟨"progress".data, 60, some (structuredMarker ++ "ab".data), none, none⟩).jsonBuffer
      = "ab".data ∧
    (50 : ℚ) ≤ pdfStructuredWidth 2 ∧ pdfStructuredWidth 2 ≤ 90 := by
  have h := pdf_structured_band pdfInit
    ⟨"progress".data, 60, some (structuredMarker ++ "ab".data), none, none⟩
    "ab".data rfl rfl
  refine ⟨?_, ?_, (h.2.2.2.2.1 2).1, (h.2.2.2.2.1 2).2⟩
  · rw [h.1]
    rfl
  · rw [h.2.1]
    rfl

theorem pdf_structured_band_counterexample :
    (handlePdfEvent pdfInit
        ⟨"progress".data, 60, some (structuredMarker ++ List.replicate 2000 'a'), none,
          none⟩).width = 90 ∧
    min (((2000 : Nat) : ℚ) / 2000) 1 = 1 ∧
    (90 : ℚ) ≠ 100 := by
  have h := handlePdf_structured pdfInit
    ⟨"progress".data, 60, some (structuredMarker ++ List.replicate 2000 'a'), none, none⟩
    (List.replicate 2000 'a') rfl rfl
  refine ⟨?_, by norm_num, by norm_num⟩
  rw [h.1]
  have hlen : (pdfInit.jsonBuffer ++ List.replicate 2000 'a').length = 2000 := by
    rw [show pdfInit.jsonBuffer = [] from rfl, List.nil_append, List.length_replicate]
  rw [hlen]
  unfold pdfStructuredWidth
  norm_num

/-- C8 (amended): on the image path a progress `stage` that begins with
neither `CAPTION_CHUNK:` nor `OCR_TEXT:` is displayed verbatim as the status
text and nothing is accumulated; on the PDF path a stage not beginning with
`STRUCTURED_CHUNK:` is displayed verbatim only when it is one of the fixed
recognized status strings, while any other non-empty stage is appended to the
JSON accumulator and the status shows `Structuring document...` instead. -/
theorem plain_stage_display (sti : ImgState) (e1 : SEvent) (s1 : List Char)
    (stp stp2 : PdfState) (e2 e3 : SEvent) (s2 s3 : List Char)
    (he1 : e1.type = "progress".data) (hs1 : e1.stage = some s1)
    (hc1 : listStartsWith captionMarker s1 = false)
    (ho1 : listStartsWith ocrMarker s1 = false)
    (he2 : e2.type = "progress".data) (hs2 : e2.stage = some s2)
    (hk2 : s2 ∈ knownPdfStages)
    (he3 : e3.type = "progress".data) (hs3 : e3.stage = some s3)
    (hn3 : s3 ∉ knownPdfStages) (hne3 : s3 ≠ [])
    (hm3 : listStartsWith structuredMarker s3 = false) :
    ((handleImageEvent sti e1).statusText = some s1 ∧
     (handleImageEvent sti e1).captionBuffer = sti.captionBuffer) ∧
    ((handlePdfEvent stp e2).statusText = some s2 ∧
     (handlePdfEvent stp e2).jsonBuffer = stp.jsonBuffer) ∧
    ((handlePdfEvent stp2 e3).statusText = some "Structuring document...".data ∧
     (handlePdfEvent stp2 e3).jsonBuffer = stp2.jsonBuffer ++ s3) := by
  have hknown : ∀ x ∈ knownPdfStages, listStartsWith structuredMarker x = false := by decide
  refine ⟨⟨?_, ?_⟩, ⟨?_, ?_⟩, ⟨?_, ?_⟩⟩
  · simp [handleImageEvent, he1, hs1, stageStarts, hc1, ho1, setImgWidth]
  · simp [handleImageEvent, he1, hs1, stageStarts, hc1, ho1, setImgWidth]
  · simp [handlePdfEvent, he2, hs2, stageStarts, hknown s2 hk2, stagePlainOther, hk2,
      setPdfWidth]
  · simp [handlePdfEvent, he2, hs2, stageStarts, hknown s2 hk2, stagePlainOther, hk2,
      setPdfWidth]
  · simp [handlePdfEvent, he3, hs3, stageStarts, hm3, stagePlainOther, hn3, hne3,
      setPdfWidth]
  · simp [handlePdfEvent, he3, hs3, stageStarts, hm3, stagePlainOther, hn3, hne3,
      setPdfWidth]

theorem plain_stage_display_witness :
    (handleImageEvent imgInit
        ⟨"progress".data, 10, some "Analyzing image".data, none, none⟩).statusText
      = some "Analyzing image".data ∧
    (handlePdfEvent pdfInit
        ⟨"progress".data, 10, some "Generating keywords".data, none, none⟩).statusText
      = some "Generating keywords".data ∧
    (handlePdfEvent pdfInit
        ⟨"progress".data, 10, some "Chunky".data, none, none⟩).jsonBuffer
      = "Chunky".data := by
  have h := plain_stage_display imgInit
    ⟨"progress".data, 10, some "Analyzing image".data, none, none⟩ "Analyzing image".data
    pdfInit pdfInit
    ⟨"progress".data, 10, some "Generating keywords".data, none, none⟩
    ⟨"progress".data, 10, some "Chunky".data, none, none⟩
    "Generating keywords".data "Chunky".data
    rfl rfl (by decide) (by decide) rfl rfl (by decide) rfl rfl (by decide) (by decide)
    (by decide)
  refine ⟨h.1.1, h.2.1.1, ?_⟩
  rw [h.2.2.2]
  rfl

theorem plain_stage_display_counterexample :
    (handlePdfEvent pdfInit
        ⟨"progress".data, 0, some "Hello world".data, none, none⟩).statusText
      = some "Structuring document...".data ∧
    (handlePdfEvent pdfInit
        ⟨"progress".data, 0, some "Hello world".data, none, none⟩).jsonBuffer
      = "Hello world".data ∧
    "Structuring document...".data ≠ "Hello world".data := by decide

/-- C9 (amended): displaying a non-empty search result array overwrites the
global most-recent-results store with exactly the new array; an empty result
array shows the no-results message and leaves the store untouched. -/
theorem search_results_store (α : Type) (store : Option (List α)) (results : List α)
    (h : results ≠ []) :
    (displaySearchResults store results).1 = some results ∧
    (displaySearchResults store ([] : List α)).1 = store := by
  constructor
  · simp [displaySearchResults, h]
  · rfl

theorem search_results_store_witness :
    (displaySearchResults (some [1]) [2]).1 = some [2] ∧
    (displaySearchResults (some [1]) ([] : List Nat)).1 = some [1] :=
  search_results_store Nat (some [1]) [2] (by decide)

theorem search_results_store_counterexample :
    (displaySearchResults (some [1]) ([] : List Nat)).1 = some [1] ∧
    some [1] ≠ some ([] : List Nat) := by decide

/-- C10: after the history update at the end of `sendMessage` the chat history
always ends with the new user message followed by the assistant response, its
length never exceeds `maxChatHistory` (100), and it consists of the most
recent entries of the pushed history (older entries dropped when over the
limit). -/
theorem chat_history_invariant (hist : List ChatMessage) (message responseText : List Char) :
    (sendMessageHistoryUpdate hist message responseText).length ≤ maxChatHistory ∧
    (∃ pre, sendMessageHistoryUpdate hist message responseText
      = pre ++ [ChatMessage.mk "user".data message,
                ChatMessage.mk "assistant".data responseText]) ∧
    sendMessageHistoryUpdate hist message responseText
      = (hist ++ [ChatMessage.mk "user".data message,
                  ChatMessage.mk "assistant".data responseText]).drop
          ((hist.length + 2) - maxChatHistory) := by
  have hdef : sendMessageHistoryUpdate hist message responseText
      = if maxChatHistory
            < (hist ++ [ChatMessage.mk "user".data message,
                ChatMessage.mk "assistant".data responseText]).length
        then (hist ++ [ChatMessage.mk "user".data message,
              ChatMessage.mk "assistant".data responseText]).drop
            ((hist ++ [ChatMessage.mk "user".data message,
                ChatMessage.mk "assistant".data responseText]).length - maxChatHistory)
        else hist ++ [ChatMessage.mk "user".data message,
              ChatMessage.mk "assistant".data responseText] := rfl
  have hlen : (hist ++ [ChatMessage.mk "user".data message,
      ChatMessage.mk "assistant".data responseText]).length = hist.length + 2 := by
    simp
  have hmax : maxChatHistory = 100 := rfl
  rw [hdef, hlen]
  by_cases hcase : maxChatHistory < hist.length + 2
  · rw [if_pos hcase]
    have hk : hist.length + 2 - maxChatHistory ≤ hist.length := by omega
    refine ⟨?_, ⟨hist.drop (hist.length + 2 - maxChatHistory), ?_⟩, rfl⟩
    · rw [List.length_drop, hlen]
      omega
    · rw [List.drop_append_of_le_length hk]
  · rw [if_neg hcase]
    refine ⟨?_, ⟨hist, rfl⟩, ?_⟩
    · rw [hlen]
      omega
    · have h0 : hist.length + 2 - maxChatHistory = 0 := by omega
      rw [h0, List.drop_zero]
